import Mathlib

/-!
Verification of the Research Analytics Platform training/evaluation pipeline.

Shallow embedding of the training pipeline (`ModelTraining.tsx`), the
prediction path (`PredictionForm.tsx`) and the one-sample t-test
(`StatisticalTests.tsx`).  JavaScript numbers are modelled by `ℚ` where the
computations stay exact, and by `JSNum` (rationals extended with infinities
and NaN) where IEEE division-by-zero semantics matter.
-/

namespace RAP

/-! ### Hyperparameter policy (`optimizeHyperparameters`) -/

/-- Embeds `optimizeHyperparameters` from `ModelTraining.tsx`: a pure lookup
on the dataset row count, then an adjustment on the feature count.  Returns
`(nTrees, maxDepth, minSamples)`. -/
def optimizeHyperparameters (datasetSize numFeatures : ℕ) : ℕ × ℕ × ℕ :=
  let base : ℕ × ℕ × ℕ :=
    if datasetSize < 100 then (50, 5, 3)
    else if datasetSize < 500 then (100, 8, 2)
    else if datasetSize < 1000 then (150, 12, 2)
    else (200, 15, 3)
  if numFeatures > 10 then
    (min (base.1 + 50) 250, min (base.2.1 + 3) 20, base.2.2)
  else
    base

/-- The hyperparameter policy as the spec words it: a table keyed by row
count followed by the feature-count adjustment. -/
def specHyperparameterTable (datasetSize : ℕ) : ℕ × ℕ × ℕ :=
  if datasetSize < 100 then (50, 5, 3)
  else if 100 ≤ datasetSize ∧ datasetSize ≤ 499 then (100, 8, 2)
  else if 500 ≤ datasetSize ∧ datasetSize ≤ 999 then (150, 12, 2)
  else (200, 15, 3)

/-- The spec's feature-count adjustment: for more than 10 features,
`maxDepth` becomes `min (maxDepth + 3) 20` and `trees` becomes
`min (trees + 50) 250`. -/
def specFeatureAdjust (numFeatures : ℕ) (p : ℕ × ℕ × ℕ) : ℕ × ℕ × ℕ :=
  if numFeatures > 10 then (min (p.1 + 50) 250, min (p.2.1 + 3) 20, p.2.2)
  else p

/-! ### Numeric-target binarization (`trainModel`, step 3) -/

/-- JavaScript `Number.prototype.toFixed(3)` for a non-negative rational:
round to the nearest multiple of 1/1000 (ties away from zero) and print
with exactly three decimals. -/
def toFixed3 (q : ℚ) : String :=
  let m : ℕ := (⌊q * 1000 + 1 / 2⌋).toNat
  let whole := m / 1000
  let frac := m % 1000
  toString whole ++ "." ++
    (if frac < 10 then "00" else if frac < 100 then "0" else "") ++ toString frac

/-- The value the code calls "median": element at index `⌊n/2⌋` of the
numeric target values sorted ascending (`sorted[Math.floor(sorted.length / 2)]`
in `ModelTraining.tsx`).  For even-length data this is the upper middle
element, not the average of the two middle elements. -/
def codeMedian (targets : List ℚ) : ℚ :=
  (List.insertionSort (· ≤ ·) targets).getD (targets.length / 2) 0

/-- The label vector for a numeric target: `val > median ? 1 : 0` per row. -/
def binarizeLabels (targets : List ℚ) : List ℕ :=
  targets.map (fun val => if val > codeMedian targets then 1 else 0)

/-- The stored target encoding for a numeric target: the two human-readable
labels built with `toFixed(3)`. -/
def numericTargetEncoding (targets : List ℚ) : List (String × ℕ) :=
  [("> " ++ toFixed3 (codeMedian targets), 1),
   ("≤ " ++ toFixed3 (codeMedian targets), 0)]

/-! ### Train/test splitting (`trainModel`, step 4) -/

/-- One step of the in-place swap
`[indices[i], indices[j]] = [indices[j], indices[i]]`: both positions are
read first, then written. -/
def listSwap (l : List ℕ) (i j : ℕ) : List ℕ :=
  (l.set i (l.getD j 0)).set j (l.getD i 0)

/-- The Fisher–Yates loop `for (let i = n - 1; i > 0; i--)`: `fyLoop c i l`
performs the swaps at positions i, i-1, …, 1, where `c i` is the random
partner index chosen for position i. -/
def fyLoop (c : ℕ → ℕ) : ℕ → List ℕ → List ℕ
  | 0, l => l
  | i + 1, l => fyLoop c i (listSwap l (i + 1) (c (i + 1)))

/-- The full Fisher–Yates shuffle of a list, starting at the last index. -/
def fisherYates (c : ℕ → ℕ) (l : List ℕ) : List ℕ :=
  fyLoop c (l.length - 1) l

/-- `Math.floor(Math.random() * (i + 1))` where `r i` is the value drawn from
`Math.random()` (so `0 ≤ r i < 1`) at loop position i. -/
def jChoice (r : ℕ → ℚ) (i : ℕ) : ℕ :=
  (⌊r i * (i + 1)⌋).toNat

/-- The shuffled index list `[0..n)` produced by `trainModel` step 4. -/
def shuffledIndices (r : ℕ → ℚ) (n : ℕ) : List ℕ :=
  fisherYates (jChoice r) (List.range n)

/-- `Math.floor(data.length * 0.8)` (0.8 is exactly 4/5). -/
def splitIdx (n : ℕ) : ℕ :=
  (⌊(n : ℚ) * (4 / 5)⌋).toNat

/-- The training indices: the first `splitIdx n` shuffled indices. -/
def trainIndices (r : ℕ → ℚ) (n : ℕ) : List ℕ :=
  (shuffledIndices r n).take (splitIdx n)

/-- The test indices: the remaining shuffled indices. -/
def testIndices (r : ℕ → ℚ) (n : ℕ) : List ℕ :=
  (shuffledIndices r n).drop (splitIdx n)

/-- `trainX = trainIndices.map(i => features[i])`. -/
def trainX (r : ℕ → ℚ) (n : ℕ) (features : List (List ℚ)) : List (List ℚ) :=
  (trainIndices r n).map (fun i => features.getD i [])

/-- `trainY = trainIndices.map(i => labels[i])`. -/
def trainY (r : ℕ → ℚ) (n : ℕ) (labels : List ℕ) : List ℕ :=
  (trainIndices r n).map (fun i => labels.getD i 0)

/-- `testX = testIndices.map(i => features[i])`. -/
def testXof (r : ℕ → ℚ) (n : ℕ) (features : List (List ℚ)) : List (List ℚ) :=
  (testIndices r n).map (fun i => features.getD i [])

/-- `testY = testIndices.map(i => labels[i])`. -/
def testYof (r : ℕ → ℚ) (n : ℕ) (labels : List ℕ) : List ℕ :=
  (testIndices r n).map (fun i => labels.getD i 0)

/-- Prepending the k-th element of a list to the list with position k
overwritten is a permutation of prepending the overwriting value. -/
theorem cons_get_set_perm :
    ∀ (xs : List ℕ) (k : ℕ) (hk : k < xs.length) (x : ℕ),
      (xs.get ⟨k, hk⟩ :: xs.set k x).Perm (x :: xs)
  | y :: ys, 0, _, x => List.Perm.swap x y ys
  | y :: ys, k + 1, hk, x => by
    have ih := cons_get_set_perm ys k (Nat.lt_of_succ_lt_succ hk) x
    have s1 : ((y :: ys).get ⟨k + 1, hk⟩ :: (y :: ys).set (k + 1) x).Perm
        (y :: ys.get ⟨k, Nat.lt_of_succ_lt_succ hk⟩ :: ys.set k x) :=
      List.Perm.swap y (ys.get ⟨k, Nat.lt_of_succ_lt_succ hk⟩) (ys.set k x)
    exact (s1.trans (ih.cons y)).trans (List.Perm.swap x y ys)

/-- Swapping two in-bounds positions of a list yields a permutation. -/
theorem set_set_perm :
    ∀ (l : List ℕ) (i j : ℕ) (hi : i < l.length) (hj : j < l.length),
      ((l.set i (l.get ⟨j, hj⟩)).set j (l.get ⟨i, hi⟩)).Perm l
  | [], i, j, hi, _ => absurd hi (by simp)
  | x :: xs, 0, 0, _, _ => by simp
  | x :: xs, 0, k + 1, hi, hj => by
    simpa using cons_get_set_perm xs k (Nat.lt_of_succ_lt_succ hj) x
  | x :: xs, m + 1, 0, hi, hj => by
    simpa using cons_get_set_perm xs m (Nat.lt_of_succ_lt_succ hi) x
  | x :: xs, m + 1, k + 1, hi, hj => by
    simpa using (set_set_perm xs m k (Nat.lt_of_succ_lt_succ hi)
      (Nat.lt_of_succ_lt_succ hj)).cons x

/-- `listSwap` at in-bounds positions is a permutation. -/
theorem listSwap_perm (l : List ℕ) (i j : ℕ) (hi : i < l.length)
    (hj : j < l.length) : (listSwap l i j).Perm l := by
  unfold listSwap
  have di : l.getD i 0 = l.get ⟨i, hi⟩ := by
    rw [List.getD_eq_getElem?_getD, List.getElem?_eq_getElem hi]
    simp [List.get_eq_getElem]
  have dj : l.getD j 0 = l.get ⟨j, hj⟩ := by
    rw [List.getD_eq_getElem?_getD, List.getElem?_eq_getElem hj]
    simp [List.get_eq_getElem]
  rw [di, dj]
  exact set_set_perm l i j hi hj

/-- The Fisher–Yates loop is a permutation whenever the partner choice never
exceeds the current position and the starting position is in bounds. -/
theorem fyLoop_perm (c : ℕ → ℕ) (hc : ∀ k, c k ≤ k) :
    ∀ (i : ℕ) (l : List ℕ), i < l.length → (fyLoop c i l).Perm l
  | 0, l, _ => by simp [fyLoop]
  | i + 1, l, h => by
    have hswap : (listSwap l (i + 1) (c (i + 1))).Perm l :=
      listSwap_perm l (i + 1) (c (i + 1)) h (lt_of_le_of_lt (hc (i + 1)) h)
    have hlen : (listSwap l (i + 1) (c (i + 1))).length = l.length :=
      hswap.length_eq
    have ih := fyLoop_perm c hc i (listSwap l (i + 1) (c (i + 1)))
      (by rw [hlen]; exact Nat.lt_of_succ_lt h)
    exact ih.trans hswap

/-- Fisher–Yates with downward-bounded partner choices permutes its input. -/
theorem fisherYates_perm (c : ℕ → ℕ) (hc : ∀ k, c k ≤ k) (l : List ℕ) :
    (fisherYates c l).Perm l := by
  unfold fisherYates
  match l with
  | [] => simp [fyLoop]
  | x :: xs =>
    have hlt : (x :: xs).length - 1 < (x :: xs).length := by simp
    exact fyLoop_perm c hc ((x :: xs).length - 1) (x :: xs) hlt

/-- The partner index drawn from a `Math.random()` value never exceeds the
loop position. -/
theorem jChoice_le (r : ℕ → ℚ) (hr : ∀ i, 0 ≤ r i ∧ r i < 1) (i : ℕ) :
    jChoice r i ≤ i := by
  unfold jChoice
  have h1 : r i * (i + 1) < ((i + 1 : ℕ) : ℚ) := by
    have := (hr i).2
    have hpos : (0 : ℚ) < (i + 1 : ℚ) := by positivity
    push_cast
    nlinarith [(hr i).1]
  have h2 : ⌊r i * (i + 1)⌋ < ((i + 1 : ℕ) : ℤ) := by
    rw [Int.floor_lt]
    push_cast at h1 ⊢
    exact h1
  have h3 : ⌊r i * (i + 1)⌋ ≤ (i : ℤ) := by
    omega
  exact Int.toNat_le.mpr h3

/-- The shuffled index list is a permutation of `[0..n)`. -/
theorem shuffledIndices_perm (r : ℕ → ℚ) (hr : ∀ i, 0 ≤ r i ∧ r i < 1)
    (n : ℕ) : (shuffledIndices r n).Perm (List.range n) :=
  fisherYates_perm (jChoice r) (jChoice_le r hr) (List.range n)

/-- The split point never exceeds the dataset size. -/
theorem splitIdx_le (n : ℕ) : splitIdx n ≤ n := by
  unfold splitIdx
  have h1 : (n : ℚ) * (4 / 5) ≤ (n : ℚ) := by
    have : (0 : ℚ) ≤ (n : ℚ) := by positivity
    nlinarith
  have h2 : ⌊(n : ℚ) * (4 / 5)⌋ ≤ (n : ℤ) := by
    calc ⌊(n : ℚ) * (4 / 5)⌋ ≤ ⌊(n : ℚ)⌋ := Int.floor_le_floor h1
    _ = (n : ℤ) := Int.floor_natCast n
  exact Int.toNat_le.mpr h2

/-- `getD` of a mapped list at an in-bounds position applies the function to
the `getD` of the underlying list. -/
theorem map_getD_of_lt {α : Type} (idxs : List ℕ) (f : ℕ → α) (d : α) (k : ℕ)
    (hk : k < idxs.length) : (idxs.map f).getD k d = f (idxs.getD k 0) := by
  rw [List.getD_eq_getElem?_getD, List.getElem?_map,
    List.getD_eq_getElem?_getD, List.getElem?_eq_getElem hk]
  simp

/-- `getD` at an in-bounds position is a member of the list. -/
theorem getD_mem_of_lt (idxs : List ℕ) (k : ℕ) (hk : k < idxs.length) :
    idxs.getD k 0 ∈ idxs := by
  rw [List.getD_eq_getElem?_getD, List.getElem?_eq_getElem hk]
  exact List.getElem_mem hk

/-- C2: for every dataset size and every outcome of `Math.random`, the
train/test splitter partitions the index set {0,…,n-1}: train and test
indices together are exactly the indices below n, they are disjoint, and
the training segment has length `floor(n * 0.8)`. -/
theorem splitter_partition (n : ℕ) (r : ℕ → ℚ)
    (hr : ∀ i, 0 ≤ r i ∧ r i < 1) (hn : 10 ≤ n) :
    (∀ x, (x ∈ trainIndices r n ∨ x ∈ testIndices r n) ↔ x < n) ∧
    (∀ x, x ∈ trainIndices r n → x ∉ testIndices r n) ∧
    (trainIndices r n).length = splitIdx n := by
  have hperm := shuffledIndices_perm r hr n
  have hlen : (shuffledIndices r n).length = n := by
    rw [hperm.length_eq, List.length_range]
  refine ⟨?_, ?_, ?_⟩
  · intro x
    constructor
    · intro h
      have hx : x ∈ shuffledIndices r n := by
        cases h with
        | inl h => exact List.mem_of_mem_take h
        | inr h => exact List.mem_of_mem_drop h
      exact List.mem_range.mp (hperm.mem_iff.mp hx)
    · intro hx
      have hmem : x ∈ shuffledIndices r n :=
        hperm.mem_iff.mpr (List.mem_range.mpr hx)
      rw [← List.take_append_drop (splitIdx n) (shuffledIndices r n)]
        at hmem
      exact List.mem_append.mp hmem
  · intro x hx1 hx2
    have hnd : (shuffledIndices r n).Nodup :=
      hperm.nodup_iff.mpr (List.nodup_range n)
    exact List.disjoint_take_drop hnd le_rfl hx1 hx2
  · rw [trainIndices, List.length_take, hlen]
    exact Nat.min_eq_left (splitIdx_le n)

/-- Witness for C2: instantiated at n = 10 with the random stream that
always returns 0; the split point is 8. -/
theorem splitter_partition_witness :
    (10 : ℕ) ≤ 10 ∧ splitIdx 10 = 8 ∧
    ((∀ x, (x ∈ trainIndices (fun _ => 0) 10 ∨
        x ∈ testIndices (fun _ => 0) 10) ↔ x < 10) ∧
     (∀ x, x ∈ trainIndices (fun _ => 0) 10 →
        x ∉ testIndices (fun _ => 0) 10) ∧
     (trainIndices (fun _ => 0) 10).length = splitIdx 10) :=
  ⟨le_rfl, by unfold splitIdx; norm_num; decide,
    splitter_partition 10 (fun _ => 0)
      (fun _ => ⟨le_rfl, by norm_num⟩) le_rfl⟩

/-- C10: the split preserves row alignment — every position of the training
(resp. test) segment draws its feature vector and its label from the same
original dataset row. -/
theorem split_row_alignment (r : ℕ → ℚ) (hr : ∀ i, 0 ≤ r i ∧ r i < 1)
    (n : ℕ) (features : List (List ℚ)) (labels : List ℕ) :
    (∀ k, k < (trainIndices r n).length →
      ∃ i, i < n ∧ (trainX r n features).getD k [] = features.getD i [] ∧
        (trainY r n labels).getD k 0 = labels.getD i 0) ∧
    (∀ k, k < (testIndices r n).length →
      ∃ i, i < n ∧ (testXof r n features).getD k [] = features.getD i [] ∧
        (testYof r n labels).getD k 0 = labels.getD i 0) := by
  have hperm := shuffledIndices_perm r hr n
  constructor
  · intro k hk
    refine ⟨(trainIndices r n).getD k 0, ?_, ?_, ?_⟩
    · have hmem : (trainIndices r n).getD k 0 ∈ trainIndices r n :=
        getD_mem_of_lt _ k hk
      exact List.mem_range.mp
        (hperm.mem_iff.mp (List.mem_of_mem_take hmem))
    · exact map_getD_of_lt _ _ _ k hk
    · exact map_getD_of_lt _ _ _ k hk
  · intro k hk
    refine ⟨(testIndices r n).getD k 0, ?_, ?_, ?_⟩
    · have hmem : (testIndices r n).getD k 0 ∈ testIndices r n :=
        getD_mem_of_lt _ k hk
      exact List.mem_range.mp
        (hperm.mem_iff.mp (List.mem_of_mem_drop hmem))
    · exact map_getD_of_lt _ _ _ k hk
    · exact map_getD_of_lt _ _ _ k hk

/-- Witness for C10: instantiated at n = 10, a concrete feature matrix and
label vector, with the random stream that always returns 0. -/
theorem split_row_alignment_witness :
    (∀ i : ℕ, (0 : ℚ) ≤ 0 ∧ (0 : ℚ) < 1) ∧
    ((∀ k, k < (trainIndices (fun _ => 0) 10).length →
      ∃ i, i < 10 ∧
        (trainX (fun _ => 0) 10 (List.range 10 |>.map (fun j => [(j : ℚ)]))).getD k [] =
          (List.range 10 |>.map (fun j => [(j : ℚ)])).getD i [] ∧
        (trainY (fun _ => 0) 10 (List.range 10)).getD k 0 =
          (List.range 10).getD i 0) ∧
     (∀ k, k < (testIndices (fun _ => 0) 10).length →
      ∃ i, i < 10 ∧
        (testXof (fun _ => 0) 10 (List.range 10 |>.map (fun j => [(j : ℚ)]))).getD k [] =
          (List.range 10 |>.map (fun j => [(j : ℚ)])).getD i [] ∧
        (testYof (fun _ => 0) 10 (List.range 10)).getD k 0 =
          (List.range 10).getD i 0)) :=
  ⟨fun _ => ⟨le_rfl, by norm_num⟩,
    split_row_alignment (fun _ => 0) (fun _ => ⟨le_rfl, by norm_num⟩) 10
      (List.range 10 |>.map (fun j => [(j : ℚ)])) (List.range 10)⟩

/-! ### Evaluation metrics (`trainModel`, step 6) -/

/-- Confusion-matrix counts. -/
structure Confusion where
  tp : ℕ
  tn : ℕ
  fp : ℕ
  fn : ℕ
deriving DecidableEq

/-- The confusion matrix built by the evaluation loop: tp (pred=1,true=1),
tn (pred=0,true=0), fp (pred=1,true=0), fn otherwise. -/
def confusionOf (preds truth : List ℕ) : Confusion :=
  (preds.zip truth).foldl
    (fun acc pt =>
      if pt.1 = 1 ∧ pt.2 = 1 then { acc with tp := acc.tp + 1 }
      else if pt.1 = 0 ∧ pt.2 = 0 then { acc with tn := acc.tn + 1 }
      else if pt.1 = 1 ∧ pt.2 = 0 then { acc with fp := acc.fp + 1 }
      else { acc with fn := acc.fn + 1 })
    ⟨0, 0, 0, 0⟩

/-- `accuracy = matches / total` over the test set. -/
def accuracyOf (preds truth : List ℕ) : ℚ :=
  (((preds.zip truth).countP (fun pt => pt.1 == pt.2) : ℚ)) / (truth.length : ℚ)

/-- `precision = tp > 0 ? tp / (tp + fp) : 0`. -/
def precisionOf (preds truth : List ℕ) : ℚ :=
  if (confusionOf preds truth).tp > 0 then
    ((confusionOf preds truth).tp : ℚ) /
      (((confusionOf preds truth).tp : ℚ) + ((confusionOf preds truth).fp : ℚ))
  else 0

/-- `recall = tp > 0 ? tp / (tp + fn) : 0`. -/
def recallOf (preds truth : List ℕ) : ℚ :=
  if (confusionOf preds truth).tp > 0 then
    ((confusionOf preds truth).tp : ℚ) /
      (((confusionOf preds truth).tp : ℚ) + ((confusionOf preds truth).fn : ℚ))
  else 0

/-- `f1 = (p + r) > 0 ? 2pr / (p + r) : 0`. -/
def f1Of (preds truth : List ℕ) : ℚ :=
  if precisionOf preds truth + recallOf preds truth > 0 then
    2 * precisionOf preds truth * recallOf preds truth /
      (precisionOf preds truth + recallOf preds truth)
  else 0

/-- The 21 nominal thresholds `i / 20` for `i = 0..20`. -/
def rocThresholds : List ℚ :=
  (List.range 21).map (fun i => (i : ℚ) / 20)

/-- The confusion counts recomputed inside the ROC loop (note the loop body
never uses the threshold). -/
def rocConfusion (preds truth : List ℕ) : Confusion :=
  (preds.zip truth).foldl
    (fun acc pt =>
      if pt.1 = 1 ∧ pt.2 = 1 then { acc with tp := acc.tp + 1 }
      else if pt.1 = 1 ∧ pt.2 = 0 then { acc with fp := acc.fp + 1 }
      else if pt.1 = 0 ∧ pt.2 = 0 then { acc with tn := acc.tn + 1 }
      else if pt.1 = 0 ∧ pt.2 = 1 then { acc with fn := acc.fn + 1 }
      else acc)
    ⟨0, 0, 0, 0⟩

/-- The (fpr, tpr) point computed at each nominal threshold. -/
def rocPoint (preds truth : List ℕ) : ℚ × ℚ :=
  ((if (rocConfusion preds truth).fp + (rocConfusion preds truth).tn > 0 then
      ((rocConfusion preds truth).fp : ℚ) /
        (((rocConfusion preds truth).fp : ℚ) + ((rocConfusion preds truth).tn : ℚ))
    else 0),
   (if (rocConfusion preds truth).tp + (rocConfusion preds truth).fn > 0 then
      ((rocConfusion preds truth).tp : ℚ) /
        (((rocConfusion preds truth).tp : ℚ) + ((rocConfusion preds truth).fn : ℚ))
    else 0))

/-- The ROC curve: one point pushed per nominal threshold (the threshold is
unused by the loop body). -/
def rocCurveOf (preds truth : List ℕ) : List (ℚ × ℚ) :=
  rocThresholds.map (fun _t => rocPoint preds truth)

/-- `rocCurve.sort((a, b) => a.fpr - b.fpr)`: sort by ascending fpr. -/
def sortByFpr (pts : List (ℚ × ℚ)) : List (ℚ × ℚ) :=
  List.insertionSort (fun a b => a.1 ≤ b.1) pts

/-- Trapezoidal integration over consecutive curve points. -/
def trapezoid : List (ℚ × ℚ) → ℚ
  | p :: q :: rest => (q.1 - p.1) * ((q.2 + p.2) / 2) + trapezoid (q :: rest)
  | _ => 0

/-- The AUC: trapezoidal integral over the curve sorted by ascending fpr. -/
def aucOf (preds truth : List ℕ) : ℚ :=
  trapezoid (sortByFpr (rocCurveOf preds truth))

/-- The reported metrics record (`modelMetrics` in `trainModel`). -/
structure ModelMetrics where
  accuracy : ℚ
  precision : ℚ
  recallScore : ℚ
  f1Score : ℚ
  trainSize : ℕ
  testSize : ℕ
  auc : ℚ

/-- The `modelMetrics` object assembled at the end of evaluation: the four
ratio metrics are scaled by 100, the AUC is not. -/
def mkModelMetrics (preds truth : List ℕ) (trainSize : ℕ) : ModelMetrics :=
  { accuracy := accuracyOf preds truth * 100
    precision := precisionOf preds truth * 100
    recallScore := recallOf preds truth * 100
    f1Score := f1Of preds truth * 100
    trainSize := trainSize
    testSize := truth.length
    auc := aucOf preds truth }

/-- Sorting a constant list leaves it unchanged. -/
theorem insertionSort_replicate (n : ℕ) (p : ℚ × ℚ) :
    List.insertionSort (fun a b => a.1 ≤ b.1) (List.replicate n p) =
      List.replicate n p := by
  induction n with
  | zero => simp
  | succ m ih =>
    rw [List.replicate_succ, List.insertionSort, ih]
    cases m with
    | zero => simp
    | succ k =>
      rw [List.replicate_succ]
      simp [List.orderedInsert, List.replicate_succ]

/-- The trapezoidal integral over a constant curve is 0. -/
theorem trapezoid_replicate : ∀ (n : ℕ) (p : ℚ × ℚ),
    trapezoid (List.replicate n p) = 0
  | 0, _ => by simp [trapezoid]
  | 1, _ => by simp [List.replicate_succ, trapezoid]
  | m + 2, p => by
    have ih := trapezoid_replicate (m + 1) p
    rw [List.replicate_succ]
    rw [show List.replicate (m + 1) p = p :: List.replicate m p from
      List.replicate_succ p m]
    show (p.1 - p.1) * ((p.2 + p.2) / 2) + trapezoid (p :: List.replicate m p) = 0
    rw [sub_self, zero_mul, zero_add, ← List.replicate_succ]
    exact ih

/-- C6: the ROC loop evaluates 21 nominal thresholds i/20, recomputes the
same confusion counts from the fixed hard predictions at every one of them
(so all 21 (fpr, tpr) points are identical), and the AUC is the trapezoidal
integral over the points sorted by ascending fpr — which is therefore 0. -/
theorem roc_curve_degenerate (preds truth : List ℕ) :
    rocThresholds = (List.range 21).map (fun i => (i : ℚ) / 20) ∧
    rocThresholds.length = 21 ∧
    rocCurveOf preds truth = List.replicate 21 (rocPoint preds truth) ∧
    aucOf preds truth = trapezoid (sortByFpr (rocCurveOf preds truth)) ∧
    aucOf preds truth = 0 := by
  have hlen : rocThresholds.length = 21 := rfl
  have hcurve : rocCurveOf preds truth =
      List.replicate 21 (rocPoint preds truth) := by
    rw [rocCurveOf, List.map_const', hlen]
  refine ⟨rfl, hlen, hcurve, rfl, ?_⟩
  rw [aucOf, hcurve, sortByFpr, insertionSort_replicate, trapezoid_replicate]

/-- C5: the evaluator guards every division — precision and recall are 0
when tp = 0 and the guarded ratios otherwise, f1 is 0 when p + r = 0 and
2pr/(p+r) otherwise — and the reported metrics are the raw ratios scaled by
100, while the AUC is reported unscaled. -/
theorem evaluator_metric_formulas (preds truth : List ℕ) (ts : ℕ) :
    ((confusionOf preds truth).tp = 0 →
      precisionOf preds truth = 0 ∧ recallOf preds truth = 0) ∧
    (0 < (confusionOf preds truth).tp →
      precisionOf preds truth = ((confusionOf preds truth).tp : ℚ) /
        (((confusionOf preds truth).tp : ℚ) + ((confusionOf preds truth).fp : ℚ)) ∧
      recallOf preds truth = ((confusionOf preds truth).tp : ℚ) /
        (((confusionOf preds truth).tp : ℚ) + ((confusionOf preds truth).fn : ℚ))) ∧
    (precisionOf preds truth + recallOf preds truth = 0 →
      f1Of preds truth = 0) ∧
    (0 < precisionOf preds truth + recallOf preds truth →
      f1Of preds truth = 2 * precisionOf preds truth * recallOf preds truth /
        (precisionOf preds truth + recallOf preds truth)) ∧
    (mkModelMetrics preds truth ts).accuracy = accuracyOf preds truth * 100 ∧
    (mkModelMetrics preds truth ts).precision = precisionOf preds truth * 100 ∧
    (mkModelMetrics preds truth ts).recallScore = recallOf preds truth * 100 ∧
    (mkModelMetrics preds truth ts).f1Score = f1Of preds truth * 100 ∧
    (mkModelMetrics preds truth ts).auc = aucOf preds truth := by
  refine ⟨?_, ?_, ?_, ?_, by simp [mkModelMetrics], by simp [mkModelMetrics],
    by simp [mkModelMetrics], by simp [mkModelMetrics], by simp [mkModelMetrics]⟩
  · intro h
    constructor <;> simp [precisionOf, recallOf, h]
  · intro h
    constructor <;> simp [precisionOf, recallOf, h]
  · intro h
    simp [f1Of, h]
  · intro h
    simp [f1Of, h]

/-- Witness for C5: the tp > 0 branch at predictions [1,0,1] against truth
[1,1,0], and the tp = 0 branch at prediction [0] against truth [1]. -/
theorem evaluator_metric_formulas_witness :
    (0 < (confusionOf [1, 0, 1] [1, 1, 0]).tp ∧
      (precisionOf [1, 0, 1] [1, 1, 0] = ((confusionOf [1, 0, 1] [1, 1, 0]).tp : ℚ) /
          (((confusionOf [1, 0, 1] [1, 1, 0]).tp : ℚ) +
            ((confusionOf [1, 0, 1] [1, 1, 0]).fp : ℚ)) ∧
        recallOf [1, 0, 1] [1, 1, 0] = ((confusionOf [1, 0, 1] [1, 1, 0]).tp : ℚ) /
          (((confusionOf [1, 0, 1] [1, 1, 0]).tp : ℚ) +
            ((confusionOf [1, 0, 1] [1, 1, 0]).fn : ℚ)))) ∧
    ((confusionOf [0] [1]).tp = 0 ∧
      (precisionOf [0] [1] = 0 ∧ recallOf [0] [1] = 0)) :=
  ⟨⟨by decide, (evaluator_metric_formulas [1, 0, 1] [1, 1, 0] 0).2.1 (by decide)⟩,
   ⟨by decide, (evaluator_metric_formulas [0] [1] 0).1 (by decide)⟩⟩

/-! ### Permutation feature importance (`trainModel`, step 7) -/

/-- Raw importances: `Math.max(0, baselineAccuracy - permutedAccuracy)` per
feature, where `permAccs` are the (random) permuted-matrix accuracies. -/
def rawImportances (base : ℚ) (permAccs : List ℚ) : List ℚ :=
  permAccs.map (fun a => max 0 (base - a))

/-- Normalization to percentages:
`total > 0 ? (importance / total) * 100 : 0` per feature. -/
def normalizeImportances (raw : List ℚ) : List ℚ :=
  raw.map (fun v => if raw.sum > 0 then v / raw.sum * 100 else 0)

/-- Summing `v / t * 100` over a list factors through the list sum. -/
theorem sum_map_div_mul (l : List ℚ) (t : ℚ) :
    (l.map (fun v => v / t * 100)).sum = l.sum / t * 100 := by
  induction l with
  | nil => simp
  | cons x xs ih =>
    simp only [List.map_cons, List.sum_cons, ih]
    ring

/-- C7: every raw permutation importance is non-negative; when the total raw
importance is positive the normalized importances sum to exactly 100, and
when it is 0 every normalized importance is exactly 0. -/
theorem importance_normalization (base : ℚ) (permAccs : List ℚ) :
    (∀ x ∈ rawImportances base permAccs, 0 ≤ x) ∧
    (0 < (rawImportances base permAccs).sum →
      (normalizeImportances (rawImportances base permAccs)).sum = 100) ∧
    ((rawImportances base permAccs).sum = 0 →
      ∀ x ∈ normalizeImportances (rawImportances base permAccs), x = 0) := by
  refine ⟨?_, ?_, ?_⟩
  · intro x hx
    obtain ⟨a, _, rfl⟩ := List.mem_map.mp hx
    exact le_max_left 0 _
  · intro h
    have hne : (rawImportances base permAccs).sum ≠ 0 := ne_of_gt h
    rw [normalizeImportances]
    simp only [gt_iff_lt, h, if_true]
    rw [sum_map_div_mul, div_self hne, one_mul]
  · intro h x hx
    rw [normalizeImportances] at hx
    obtain ⟨v, _, rfl⟩ := List.mem_map.mp hx
    simp [h]

/-- Witness for C7: baseline accuracy 1 with a single permuted accuracy 0
gives total raw importance 1 > 0 and normalized sum 100. -/
theorem importance_normalization_witness :
    0 < (rawImportances 1 [0]).sum ∧
    ((∀ x ∈ rawImportances 1 [0], 0 ≤ x) ∧
      (normalizeImportances (rawImportances 1 [0])).sum = 100) :=
  ⟨by norm_num [rawImportances],
   ⟨(importance_normalization 1 [0]).1,
    (importance_normalization 1 [0]).2.1 (by norm_num [rawImportances])⟩⟩

/-! ### Inference-time feature transform (`PredictionForm.tsx`) -/

/-- Column type as configured by the user. -/
inductive FType
  | numeric
  | categorical
deriving DecidableEq

/-- The two errors `handlePredict` can throw while transforming input. -/
inductive PredError
  | badNumber (feature : String)
  | unseenCategory (feature value : String)
deriving DecidableEq

/-- Per-feature normalization statistics stored at training time. -/
structure FeatureStats where
  mean : ℚ
  std : ℚ

/-- Everything `handlePredict` reads while transforming the form input:
the configured feature types, the submitted form values, `parseFloat`
(where `none` models `NaN`), and the stored stats and encoding maps. -/
structure PredictContext where
  featureTypes : String → FType
  formValues : String → String
  parseFloatQ : String → Option ℚ
  featureStats : String → Option FeatureStats
  encodingMaps : String → Option (String → Option ℕ)

/-- Transform one submitted feature value exactly as `handlePredict` does:
numeric → parse (throw "Bad number" on NaN) then z-score if stats exist;
categorical → encode via the stored map, throwing the descriptive
"unseen category" error when the lookup misses. -/
def transformFeature (ctx : PredictContext) (f : String) : Except PredError ℚ :=
  match ctx.featureTypes f with
  | .numeric =>
    match ctx.parseFloatQ (ctx.formValues f) with
    | none => .error (.badNumber f)
    | some value =>
      match ctx.featureStats f with
      | some s => .ok ((value - s.mean) / s.std)
      | none => .ok value
  | .categorical =>
    match (ctx.encodingMaps f).bind (fun m => m (ctx.formValues f)) with
    | none => .error (.unseenCategory f (ctx.formValues f))
    | some e => .ok (e : ℚ)

/-- Transform the whole feature list left to right; the first thrown error
aborts the prediction (the `featureConfig.features.map` body throws). -/
def transformFeatures (ctx : PredictContext) : List String → Except PredError (List ℚ)
  | [] => .ok []
  | f :: fs =>
    match transformFeature ctx f with
    | .error e => .error e
    | .ok x =>
      match transformFeatures ctx fs with
      | .error e => .error e
      | .ok xs => .ok (x :: xs)

/-- The training-time categorical transform
(`encodingMaps[feature][strValue] ?? 0` in `trainModel`): a missing entry
falls back to index 0 instead of failing. -/
def trainTimeCatEncode (m : String → Option ℕ) (value : String) : ℕ :=
  (m value).getD 0

/-- Any error thrown by `transformFeature` is either "Bad number" on a
numeric feature whose value does not parse, or the descriptive unseen
category error on a categorical feature whose stored lookup misses. -/
theorem transformFeature_error_classify (ctx : PredictContext) (f : String)
    (e : PredError) (h : transformFeature ctx f = .error e) :
    (ctx.featureTypes f = .numeric ∧ e = .badNumber f ∧
      ctx.parseFloatQ (ctx.formValues f) = none) ∨
    (ctx.featureTypes f = .categorical ∧
      e = .unseenCategory f (ctx.formValues f) ∧
      (ctx.encodingMaps f).bind (fun m => m (ctx.formValues f)) = none) := by
  unfold transformFeature at h
  cases hty : ctx.featureTypes f <;> rw [hty] at h
  · cases hp : ctx.parseFloatQ (ctx.formValues f) <;> rw [hp] at h
    · exact Or.inl ⟨rfl, by cases h; exact ⟨rfl, rfl⟩⟩
    · cases hs : ctx.featureStats f <;> rw [hs] at h <;> cases h
  · cases hm : (ctx.encodingMaps f).bind (fun m => m (ctx.formValues f)) <;>
      rw [hm] at h
    · exact Or.inr ⟨rfl, by cases h; exact ⟨rfl, rfl⟩⟩
    · cases h

/-- A categorical feature whose stored lookup misses always throws the
descriptive unseen-category error. -/
theorem transformFeature_unseen (ctx : PredictContext) (f : String)
    (hcat : ctx.featureTypes f = .categorical)
    (hnone : (ctx.encodingMaps f).bind (fun m => m (ctx.formValues f)) = none) :
    transformFeature ctx f = .error (.unseenCategory f (ctx.formValues f)) := by
  unfold transformFeature
  rw [hcat, hnone]

/-- The full transform throws an unseen-category error exactly when some
categorical feature's submitted value misses its stored encoding, provided
every numeric value parses. -/
theorem transformFeatures_unseen_iff (ctx : PredictContext) :
    ∀ (features : List String),
    (∀ f ∈ features, ctx.featureTypes f = .numeric →
      (ctx.parseFloatQ (ctx.formValues f)).isSome = true) →
    ((∃ f v, transformFeatures ctx features = .error (.unseenCategory f v)) ↔
      ∃ f ∈ features, ctx.featureTypes f = .categorical ∧
        (ctx.encodingMaps f).bind (fun m => m (ctx.formValues f)) = none)
  | [], _ => by simp [transformFeatures]
  | g :: gs, hnum => by
    have ih := transformFeatures_unseen_iff ctx gs
      (fun f hf => hnum f (List.mem_cons_of_mem g hf))
    constructor
    · rintro ⟨f, v, herr⟩
      unfold transformFeatures at herr
      cases hg : transformFeature ctx g with
      | error e =>
        rw [hg] at herr
        cases herr
        rcases transformFeature_error_classify ctx g _ hg with
          ⟨_, he, _⟩ | ⟨hc, he, hm⟩
        · exact PredError.noConfusion he
        · injection he with hf hv
          exact ⟨g, List.mem_cons_self g gs, hc, hm⟩
      | ok x =>
        rw [hg] at herr
        cases hrec : transformFeatures ctx gs with
        | error e2 =>
          rw [hrec] at herr
          cases herr
          obtain ⟨f', hf', hprops⟩ := ih.mp ⟨f, v, hrec⟩
          exact ⟨f', List.mem_cons_of_mem g hf', hprops⟩
        | ok xs =>
          rw [hrec] at herr
          exact Except.noConfusion herr
    · rintro ⟨f, hf, hcat, hnone⟩
      rcases List.mem_cons.mp hf with rfl | hmem
      · refine ⟨f, ctx.formValues f, ?_⟩
        unfold transformFeatures
        rw [transformFeature_unseen ctx f hcat hnone]
      · obtain ⟨f', v', hrec⟩ := ih.mpr ⟨f, hmem, hcat, hnone⟩
        unfold transformFeatures
        cases hg : transformFeature ctx g with
        | error e =>
          rcases transformFeature_error_classify ctx g e hg with
            ⟨hn, he, hp⟩ | ⟨_, he, hm⟩
          · have hsome := hnum g (List.mem_cons_self g gs) hn
            rw [hp] at hsome
            exact Bool.noConfusion hsome
          · exact ⟨g, ctx.formValues g, by rw [he]⟩
        | ok x =>
          rw [hrec]
          exact ⟨f', v', rfl⟩

/-- C3: `predict` fails with a descriptive "unseen category" error exactly
when some categorical feature's submitted value has no entry in its stored
encoding map (assuming every numeric field parses); in that case no
transformed feature vector (hence no prediction) is produced; and the
training-time transform instead falls back to index 0 for a categorical
value absent from the encoding map. -/
theorem unseen_category_contract (ctx : PredictContext)
    (features : List String)
    (hnum : ∀ f ∈ features, ctx.featureTypes f = .numeric →
      (ctx.parseFloatQ (ctx.formValues f)).isSome = true) :
    ((∃ f v, transformFeatures ctx features = .error (.unseenCategory f v)) ↔
      ∃ f ∈ features, ctx.featureTypes f = .categorical ∧
        (ctx.encodingMaps f).bind (fun m => m (ctx.formValues f)) = none) ∧
    (∀ e, transformFeatures ctx features = .error e →
      ∀ xs, transformFeatures ctx features ≠ .ok xs) ∧
    (∀ (m : String → Option ℕ) (v : String), m v = none →
      trainTimeCatEncode m v = 0) := by
  refine ⟨transformFeatures_unseen_iff ctx features hnum, ?_, ?_⟩
  · intro e he xs hok
    rw [he] at hok
    exact Except.noConfusion hok
  · intro m v hv
    rw [trainTimeCatEncode, hv]
    rfl

/-- The concrete inference context used by the C3 witness: one categorical
feature "color", submitted value "Blue", trained encoding containing only
"Red". -/
def ctxUnseenExample : PredictContext where
  featureTypes := fun _ => .categorical
  formValues := fun _ => "Blue"
  parseFloatQ := fun _ => none
  featureStats := fun _ => none
  encodingMaps := fun _ => some (fun v => if v = "Red" then some 0 else none)

/-- Witness for C3: in `ctxUnseenExample` with the single feature "color",
the submitted categorical value is unseen and the transform errors. -/
theorem unseen_category_contract_witness :
    (∀ f ∈ ["color"], ctxUnseenExample.featureTypes f = .numeric →
      (ctxUnseenExample.parseFloatQ (ctxUnseenExample.formValues f)).isSome = true) ∧
    ((∃ f v, transformFeatures ctxUnseenExample ["color"] =
        .error (.unseenCategory f v)) ↔
      ∃ f ∈ ["color"], ctxUnseenExample.featureTypes f = .categorical ∧
        (ctxUnseenExample.encodingMaps f).bind
          (fun m => m (ctxUnseenExample.formValues f)) = none) ∧
    (∃ f ∈ ["color"], ctxUnseenExample.featureTypes f = .categorical ∧
      (ctxUnseenExample.encodingMaps f).bind
        (fun m => m (ctxUnseenExample.formValues f)) = none) :=
  ⟨fun f _ hty => FType.noConfusion hty,
   (unseen_category_contract ctxUnseenExample ["color"]
      (fun f _ hty => FType.noConfusion hty)).1,
   ⟨"color", by simp [ctxUnseenExample]⟩⟩

/-! ### Vote-based confidence (`handlePredict`) -/

/-- `classVotes[treePred] = (classVotes[treePred] || 0) + 1` on the tally
dictionary, modelled as an association list. -/
def addVote : List (ℤ × ℕ) → ℤ → List (ℤ × ℕ)
  | [], v => [(v, 1)]
  | (k, c) :: rest, v =>
    if k = v then (k, c + 1) :: rest else (k, c) :: addVote rest v

/-- The while-loop over the ensemble's trees: each tree's vote is `some v`,
or `none` when the tree throws (and is silently skipped). -/
def tallyVotes (votes : List (Option ℤ)) : List (ℤ × ℕ) :=
  votes.foldl
    (fun t o => match o with | some v => addVote t v | none => t) []

/-- `classVotes[prediction] || 0`. -/
def lookupTally : List (ℤ × ℕ) → ℤ → ℕ
  | [], _ => 0
  | (k, c) :: rest, v => if k = v then c else lookupTally rest v

/-- `Object.values(classVotes)` summed: the total number of successful
votes. -/
def sumTally (t : List (ℤ × ℕ)) : ℕ :=
  (t.map (fun p => p.2)).sum

/-- `confidence = totalVotes > 0 ? votesForPrediction / totalVotes : 0.5`. -/
def confidenceOf (votes : List (Option ℤ)) (prediction : ℤ) : ℚ :=
  if sumTally (tallyVotes votes) > 0 then
    (lookupTally (tallyVotes votes) prediction : ℚ) /
      (sumTally (tallyVotes votes) : ℚ)
  else 1 / 2

/-- Adding a vote increments exactly the voted class's tally entry. -/
theorem lookupTally_addVote (t : List (ℤ × ℕ)) (v w : ℤ) :
    lookupTally (addVote t v) w =
      lookupTally t w + (if w = v then 1 else 0) := by
  induction t with
  | nil =>
    simp only [addVote, lookupTally]
    rcases eq_or_ne v w with h | h
    · subst h
      simp
    · simp [if_neg h, if_neg (Ne.symm h)]
  | cons p rest ih =>
    obtain ⟨k, c⟩ := p
    simp only [addVote]
    rcases eq_or_ne k v with hkv | hkv
    · subst hkv
      rw [if_pos rfl]
      simp only [lookupTally]
      rcases eq_or_ne k w with hkw | hkw
      · subst hkw
        simp
      · simp [if_neg hkw, if_neg (Ne.symm hkw)]
    · rw [if_neg hkv]
      simp only [lookupTally]
      rcases eq_or_ne k w with hkw | hkw
      · subst hkw
        simp [if_neg (Ne.symm hkv), hkv]
      · rw [if_neg hkw, if_neg hkw, ih]

/-- Adding a vote increases the total tally by one. -/
theorem sumTally_addVote (t : List (ℤ × ℕ)) (v : ℤ) :
    sumTally (addVote t v) = sumTally t + 1 := by
  induction t with
  | nil => simp [addVote, sumTally]
  | cons p rest ih =>
    obtain ⟨k, c⟩ := p
    by_cases hkv : k = v
    · subst hkv
      simp [addVote, sumTally]
      omega
    · simp [addVote, if_neg hkv, sumTally] at ih ⊢
      omega

/-- Loop invariant for the vote tally: lookups count the successful votes
per class and the total counts all successful votes. -/
theorem tally_foldl_invariant (votes : List (Option ℤ)) :
    ∀ (acc : List (ℤ × ℕ)),
    (∀ w, lookupTally (votes.foldl
        (fun t o => match o with | some v => addVote t v | none => t) acc) w =
      lookupTally acc w + (votes.filterMap id).count w) ∧
    sumTally (votes.foldl
        (fun t o => match o with | some v => addVote t v | none => t) acc) =
      sumTally acc + (votes.filterMap id).length := by
  induction votes with
  | nil => intro acc; simp
  | cons o os ih =>
    intro acc
    cases o with
    | none =>
      simpa using ih acc
    | some v =>
      obtain ⟨ihl, ihs⟩ := ih (addVote acc v)
      refine ⟨?_, ?_⟩
      · intro w
        rw [List.foldl_cons]
        show lookupTally (os.foldl _ (addVote acc v)) w = _
        rw [ihl w, lookupTally_addVote]
        have hfm : List.filterMap id (some v :: os) = v :: List.filterMap id os := by
          simp
        rw [hfm, List.count_cons]
        rcases eq_or_ne w v with hwv | hwv
        · subst hwv
          simp
          omega
        · simp [beq_iff_eq, if_neg hwv, if_neg (Ne.symm hwv)]
      · rw [List.foldl_cons]
        show sumTally (os.foldl _ (addVote acc v)) = _
        rw [ihs, sumTally_addVote]
        simp
        omega

/-- C8: every tree votes on the same input; a throwing tree is skipped
silently (dropping a `none` vote does not change the confidence); the
confidence is votes-for-the-winning-class over total successful votes; and
with zero successful votes the confidence defaults to exactly 1/2. -/
theorem confidence_contract (votes : List (Option ℤ)) (prediction : ℤ) :
    ((votes.filterMap id).length = 0 →
      confidenceOf votes prediction = 1 / 2) ∧
    (0 < (votes.filterMap id).length →
      confidenceOf votes prediction =
        ((votes.filterMap id).count prediction : ℚ) /
          ((votes.filterMap id).length : ℚ)) ∧
    (∀ pre post, confidenceOf (pre ++ none :: post) prediction =
      confidenceOf (pre ++ post) prediction) := by
  obtain ⟨hl, hs⟩ := tally_foldl_invariant votes []
  have hsum : sumTally (tallyVotes votes) = (votes.filterMap id).length := by
    rw [tallyVotes, hs]
    simp [sumTally]
  have hlook : lookupTally (tallyVotes votes) prediction =
      (votes.filterMap id).count prediction := by
    rw [tallyVotes, hl prediction]
    simp [lookupTally]
  refine ⟨?_, ?_, ?_⟩
  · intro h
    rw [confidenceOf, hsum, h]
    simp
  · intro h
    rw [confidenceOf, hsum, hlook, if_pos h]
  · intro pre post
    have htally : tallyVotes (pre ++ none :: post) = tallyVotes (pre ++ post) := by
      rw [tallyVotes, tallyVotes, List.foldl_append, List.foldl_append,
        List.foldl_cons]
    rw [confidenceOf, confidenceOf, htally]

/-- Witness for C8: votes [some 1, none, some 0, some 1] for prediction 1 —
three successful votes, the `none` (throwing) tree skipped. -/
theorem confidence_contract_witness :
    0 < (([some 1, none, some 0, some 1] : List (Option ℤ)).filterMap id).length ∧
    confidenceOf [some 1, none, some 0, some 1] 1 =
      ((([some 1, none, some 0, some 1] : List (Option ℤ)).filterMap id).count 1 : ℚ) /
        ((([some 1, none, some 0, some 1] : List (Option ℤ)).filterMap id).length : ℚ) :=
  ⟨by decide, (confidence_contract [some 1, none, some 0, some 1] 1).2.1 (by decide)⟩

/-! ### One-sample t-test (`StatisticalTests.tsx`) -/

/-- A JavaScript number: a finite rational, ±Infinity, or NaN.  Captures
IEEE division-by-zero semantics, which the t-test hits on a constant
column. -/
inductive JSNum
  | num (q : ℚ)
  | posInf
  | negInf
  | nan
deriving DecidableEq

/-- JavaScript addition. -/
def jsAdd : JSNum → JSNum → JSNum
  | .num a, .num b => .num (a + b)
  | .num _, .posInf => .posInf
  | .num _, .negInf => .negInf
  | .posInf, .num _ => .posInf
  | .negInf, .num _ => .negInf
  | .posInf, .posInf => .posInf
  | .negInf, .negInf => .negInf
  | _, _ => .nan

/-- JavaScript subtraction. -/
def jsSub : JSNum → JSNum → JSNum
  | .num a, .num b => .num (a - b)
  | .num _, .posInf => .negInf
  | .num _, .negInf => .posInf
  | .posInf, .num _ => .posInf
  | .negInf, .num _ => .negInf
  | .posInf, .negInf => .posInf
  | .negInf, .posInf => .negInf
  | _, _ => .nan

/-- JavaScript multiplication (`Infinity * 0` is NaN). -/
def jsMul : JSNum → JSNum → JSNum
  | .num a, .num b => .num (a * b)
  | .num a, .posInf =>
    if 0 < a then .posInf else if a < 0 then .negInf else .nan
  | .num a, .negInf =>
    if 0 < a then .negInf else if a < 0 then .posInf else .nan
  | .posInf, .num b =>
    if 0 < b then .posInf else if b < 0 then .negInf else .nan
  | .negInf, .num b =>
    if 0 < b then .negInf else if b < 0 then .posInf else .nan
  | .posInf, .posInf => .posInf
  | .posInf, .negInf => .negInf
  | .negInf, .posInf => .negInf
  | .negInf, .negInf => .posInf
  | _, _ => .nan

/-- JavaScript division: a nonzero finite number divided by 0 is a signed
Infinity, `0 / 0` is NaN — no exception is ever raised. -/
def jsDiv : JSNum → JSNum → JSNum
  | .num a, .num b =>
    if b ≠ 0 then .num (a / b)
    else if 0 < a then .posInf
    else if a < 0 then .negInf
    else .nan
  | .num _, .posInf => .num 0
  | .num _, .negInf => .num 0
  | .posInf, .num b => if 0 ≤ b then .posInf else .negInf
  | .negInf, .num b => if 0 ≤ b then .negInf else .posInf
  | _, _ => .nan

/-- `Math.sqrt`, parametrized by a real-square-root oracle `f` on the
non-negative finite rationals (the embedding never needs its values beyond
`f 0 = 0` and positivity). -/
def jsSqrt (f : ℚ → ℚ) : JSNum → JSNum
  | .num a => if a < 0 then .nan else .num (f a)
  | .posInf => .posInf
  | _ => .nan

/-- JavaScript `>` (false whenever either side is NaN). -/
def jsGt : JSNum → JSNum → Bool
  | .num a, .num b => decide (b < a)
  | .posInf, .num _ => true
  | .posInf, .negInf => true
  | .num _, .negInf => true
  | _, _ => false

/-- `values.reduce((a, b) => a + b, 0)`. -/
def jsSum (l : List JSNum) : JSNum :=
  l.foldl jsAdd (.num 0)

/-- `performTTest` result record (numeric fields before display
formatting). -/
structure TTestResult where
  n : ℕ
  mean : JSNum
  std : JSNum
  se : JSNum
  t : JSNum
  df : ℤ
  pValue : ℚ
  significant : Bool

/-- The sample mean `values.reduce(...) / n`. -/
def ttMean (values : List ℚ) : JSNum :=
  jsDiv (jsSum (values.map .num)) (.num (values.length : ℚ))

/-- The sample variance with N−1 denominator:
`values.reduce((sum, val) => sum + Math.pow(val - mean, 2), 0) / (n - 1)`. -/
def ttVariance (values : List ℚ) : JSNum :=
  jsDiv
    (jsSum (values.map (fun val =>
      jsMul (jsSub (.num val) (ttMean values)) (jsSub (.num val) (ttMean values)))))
    (.num ((values.length : ℚ) - 1))

/-- `std = Math.sqrt(variance)`. -/
def ttStd (f : ℚ → ℚ) (values : List ℚ) : JSNum :=
  jsSqrt f (ttVariance values)

/-- `se = std / Math.sqrt(n)`. -/
def ttSe (f : ℚ → ℚ) (values : List ℚ) : JSNum :=
  jsDiv (ttStd f values) (jsSqrt f (.num (values.length : ℚ)))

/-- `t = mean / se`. -/
def ttT (f : ℚ → ℚ) (values : List ℚ) : JSNum :=
  jsDiv (ttMean values) (ttSe f values)

/-- The embedded `performTTest` over the parsed numeric column. -/
def performTTest (f : ℚ → ℚ) (values : List ℚ) : TTestResult :=
  { n := values.length
    mean := ttMean values
    std := ttStd f values
    se := ttSe f values
    t := ttT f values
    df := (values.length : ℤ) - 1
    pValue := if jsGt (ttT f values) (.num 2) then 1 / 20 else 1 / 10
    significant := decide ((if jsGt (ttT f values) (.num 2) then
      (1 : ℚ) / 20 else 1 / 10) < 1 / 20) }

/-- Folding JavaScript addition over finite numbers stays finite and agrees
with the rational sum. -/
theorem jsSum_num (l : List ℚ) : jsSum (l.map .num) = .num l.sum := by
  have aux : ∀ (xs : List ℚ) (acc : ℚ),
      xs.foldl (fun a b => jsAdd a (.num b)) (.num acc) = .num (acc + xs.sum) := by
    intro xs
    induction xs with
    | nil => intro acc; simp
    | cons x rest ih =>
      intro acc
      rw [List.foldl_cons]
      show List.foldl _ (jsAdd (.num acc) (.num x)) rest = _
      rw [show jsAdd (.num acc) (.num x) = .num (acc + x) from rfl, ih]
      simp
      ring
  have : (l.map JSNum.num).foldl jsAdd (.num 0) = .num (0 + l.sum) := by
    rw [List.foldl_map]
    exact aux l 0
  rw [jsSum, this, zero_add]

/-- C9: running the one-sample t-test on a constant positive column of
length at least 2 raises no exception: the computation is total, the
standard error is exactly 0, and the t-statistic is the well-defined
sentinel `Infinity` (from the JavaScript division `mean / 0`), not a
crash. -/
theorem ttest_constant_column (f : ℚ → ℚ) (hf0 : f 0 = 0)
    (hfpos : ∀ q, 0 < q → 0 < f q) (n : ℕ) (hn : 2 ≤ n) (c : ℚ) (hc : 0 < c) :
    (performTTest f (List.replicate n c)).mean = .num c ∧
    (performTTest f (List.replicate n c)).std = .num 0 ∧
    (performTTest f (List.replicate n c)).se = .num 0 ∧
    (performTTest f (List.replicate n c)).t = .posInf := by
  have hlen : (List.replicate n c).length = n := List.length_replicate n c
  have hnq : ((List.replicate n c).length : ℚ) = (n : ℚ) := by rw [hlen]
  have hn0 : (n : ℚ) ≠ 0 := by
    have : (0 : ℚ) < (n : ℚ) := by
      exact_mod_cast Nat.lt_of_lt_of_le (by norm_num) hn
    exact ne_of_gt this
  have hsum : (List.replicate n c).sum = (n : ℚ) * c := by
    rw [List.sum_replicate, nsmul_eq_mul]
  have hmean : ttMean (List.replicate n c) = .num c := by
    rw [ttMean, jsSum_num, hsum, hnq]
    rw [jsDiv, if_pos hn0]
    congr 1
    field_simp
  have hdev : (List.replicate n c).map (fun val =>
      jsMul (jsSub (.num val) (ttMean (List.replicate n c)))
        (jsSub (.num val) (ttMean (List.replicate n c)))) =
      List.replicate n (.num 0) := by
    rw [List.map_replicate, hmean]
    congr 1
    rw [show jsSub (.num c) (.num c) = .num 0 from by rw [jsSub]; congr 1; ring]
    rw [jsMul]
    congr 1
    ring
  have hvar : ttVariance (List.replicate n c) = .num 0 := by
    rw [ttVariance, hdev]
    have : List.replicate n (JSNum.num 0) = (List.replicate n (0 : ℚ)).map .num := by
      rw [List.map_replicate]
    rw [this, jsSum_num, List.sum_replicate, smul_zero, hnq]
    have hne : ((n : ℚ) - 1) ≠ 0 := by
      have : (1 : ℚ) < (n : ℚ) := by exact_mod_cast hn
      intro hcontra
      have : (n : ℚ) = 1 := by linarith
      linarith
    rw [jsDiv, if_pos hne]
    congr 1
    rw [zero_div]
  have hstd : ttStd f (List.replicate n c) = .num 0 := by
    rw [ttStd, hvar, jsSqrt, if_neg (by norm_num), hf0]
  have hse : ttSe f (List.replicate n c) = .num 0 := by
    have hnpos : (0 : ℚ) < (n : ℚ) := by
      exact_mod_cast Nat.lt_of_lt_of_le (by norm_num) hn
    have hfn : 0 < f (n : ℚ) := hfpos _ hnpos
    rw [ttSe, hstd, hnq, jsSqrt, if_neg (by linarith)]
    rw [jsDiv, if_pos (ne_of_gt hfn)]
    congr 1
    rw [zero_div]
  have ht : ttT f (List.replicate n c) = .posInf := by
    rw [ttT, hmean, hse, jsDiv, if_neg (by norm_num), if_pos hc]
  exact ⟨hmean, hstd, hse, ht⟩

/-- Witness for C9: the identity as square-root oracle (it fixes 0 and
preserves positivity), a column of five copies of 10. -/
theorem ttest_constant_column_witness :
    (fun q : ℚ => q) 0 = 0 ∧ (2 : ℕ) ≤ 5 ∧ (0 : ℚ) < 10 ∧
    ((performTTest (fun q => q) (List.replicate 5 (10 : ℚ))).mean = .num 10 ∧
     (performTTest (fun q => q) (List.replicate 5 (10 : ℚ))).std = .num 0 ∧
     (performTTest (fun q => q) (List.replicate 5 (10 : ℚ))).se = .num 0 ∧
     (performTTest (fun q => q) (List.replicate 5 (10 : ℚ))).t = .posInf) :=
  ⟨rfl, by norm_num, by norm_num,
    ttest_constant_column (fun q => q) rfl (fun _ h => h) 5 (by norm_num) 10
      (by norm_num)⟩

/-! ### Theorems for the hyperparameter policy and target binarization -/

/-- C4: the hyperparameter policy is a pure function of row count and feature
count given by the spec's lookup table (rows < 100 ↦ (50, 5, 3);
100–499 ↦ (100, 8, 2); 500–999 ↦ (150, 12, 2); ≥ 1000 ↦ (200, 15, 3)),
followed by the feature-count adjustment (for more than 10 features,
`maxDepth := min (maxDepth + 3) 20` and `trees := min (trees + 50) 250`). -/
theorem hyperparameter_policy_matches_spec (n f : ℕ) :
    optimizeHyperparameters n f = specFeatureAdjust f (specHyperparameterTable n) := by
  unfold optimizeHyperparameters specFeatureAdjust specHyperparameterTable
  split_ifs <;> simp_all <;> omega

/-- C1 counterexample: on the target values [1,…,10] the code's split point is
6 (the upper middle element of the sorted list), not the claimed median 5.5;
the produced label vector and encoding labels differ from the claimed ones. -/
theorem numeric_target_median_counterexample :
    codeMedian [1, 2, 3, 4, 5, 6, 7, 8, 9, 10] = 6 ∧
    (6 : ℚ) ≠ 11 / 2 ∧
    binarizeLabels [1, 2, 3, 4, 5, 6, 7, 8, 9, 10] ≠ [0, 0, 0, 0, 0, 1, 1, 1, 1, 1] ∧
    numericTargetEncoding [1, 2, 3, 4, 5, 6, 7, 8, 9, 10] ≠
      [("> 5.500", 1), ("≤ 5.500", 0)] := by
  have hmed : codeMedian [1, 2, 3, 4, 5, 6, 7, 8, 9, 10] = 6 := by decide
  have henc : numericTargetEncoding [1, 2, 3, 4, 5, 6, 7, 8, 9, 10] =
      [("> 6.000", 1), ("≤ 6.000", 0)] := by
    unfold numericTargetEncoding toFixed3
    rw [hmed]
    norm_num
    constructor <;> decide
  refine ⟨hmed, by norm_num, by decide, ?_⟩
  rw [henc]
  decide

/-- C1 (amended): the numeric target is binarized at the element at index
⌊n/2⌋ of the sorted target values (the upper median for even n): each value
strictly greater than that split point maps to class 1 and every other value
to class 0, and the stored encoding consists of exactly the two labels
`"> {m}"` and `"≤ {m}"` with the split point m printed to three decimals.
For [1,…,10] the split point is 6, the label vector is
[0,0,0,0,0,0,1,1,1,1], and the encoding labels are "> 6.000" and "≤ 6.000". -/
theorem numeric_target_binarization (targets : List ℚ) :
    (binarizeLabels targets).length = targets.length ∧
    (∀ i, i < targets.length →
      (binarizeLabels targets).getD i 0 =
        if codeMedian targets < targets.getD i 0 then 1 else 0) ∧
    (∃ s : List ℚ, s.Perm targets ∧ s.Sorted (· ≤ ·) ∧
      codeMedian targets = s.getD (targets.length / 2) 0) ∧
    numericTargetEncoding targets =
      [("> " ++ toFixed3 (codeMedian targets), 1),
       ("≤ " ++ toFixed3 (codeMedian targets), 0)] ∧
    codeMedian [1, 2, 3, 4, 5, 6, 7, 8, 9, 10] = 6 ∧
    binarizeLabels [1, 2, 3, 4, 5, 6, 7, 8, 9, 10] = [0, 0, 0, 0, 0, 0, 1, 1, 1, 1] ∧
    numericTargetEncoding [1, 2, 3, 4, 5, 6, 7, 8, 9, 10] =
      [("> 6.000", 1), ("≤ 6.000", 0)] := by
  have hmed : codeMedian [1, 2, 3, 4, 5, 6, 7, 8, 9, 10] = 6 := by decide
  refine ⟨by simp [binarizeLabels], ?_, ?_, rfl, hmed, by decide, ?_⟩
  · intro i hi
    have h1 : (binarizeLabels targets)[i]? = targets[i]?.map
        (fun val => if codeMedian targets < val then 1 else 0) := by
      simp [binarizeLabels]
    rw [List.getD_eq_getElem?_getD, List.getD_eq_getElem?_getD, h1,
      List.getElem?_eq_getElem hi]
    simp
  · exact ⟨List.insertionSort (· ≤ ·) targets,
      List.perm_insertionSort (· ≤ ·) targets,
      List.sorted_insertionSort (· ≤ ·) targets, rfl⟩
  · unfold numericTargetEncoding toFixed3
    rw [hmed]
    norm_num
    constructor <;> decide

/-- Witness for the amended C1 theorem: instantiated at the target values
[1,…,10] and row index 7 (the value 8, which exceeds the split point 6). -/
theorem numeric_target_binarization_witness :
    7 < ([1, 2, 3, 4, 5, 6, 7, 8, 9, 10] : List ℚ).length ∧
    (binarizeLabels [1, 2, 3, 4, 5, 6, 7, 8, 9, 10]).getD 7 0 =
      (if codeMedian [1, 2, 3, 4, 5, 6, 7, 8, 9, 10] <
          ([1, 2, 3, 4, 5, 6, 7, 8, 9, 10] : List ℚ).getD 7 0 then 1 else 0) :=
  ⟨by decide,
    (numeric_target_binarization [1, 2, 3, 4, 5, 6, 7, 8, 9, 10]).2.1 7 (by decide)⟩

end RAP
